import Mathlib

/-!
Verification development for the CelesTrak LEO TLE filter application
(`TLE_gpt.py`).  The core pipeline — parsing raw two-line-element text into
(name, line1, line2) records, deriving perigee altitude, filtering by an
altitude threshold and an optional case-insensitive name substring, and
re-exporting the filtered records — is embedded shallowly below.

Modelling conventions:
* A Python string is modelled as its list of characters (`PyStr`).
* `str.strip` is modelled with `Char.isWhitespace` (space, tab, CR, LF),
  the whitespace forms that occur in TLE catalog text.
* `str.splitlines` is modelled as splitting on `'\n'` (the line separator
  used by the data and by the exporter), with no empty final piece when the
  text ends in a newline, matching Python's behaviour on such text.
* `str.lower` is modelled with `Char.toLower`, which agrees with Python on
  ASCII, the alphabet of TLE data.
* The per-record altitude computation reaches into the `skyfield` library
  (floating point, not part of this repository's sources), so the filter is
  parametrised by an abstract `computeAlt : PyStr → PyStr → Option ℚ`:
  `some p` models a successful computation returning altitude `p`,
  `none` models any exception raised while handling that record.
* The numeric perigee derivation itself is modelled over `ℝ`.
-/

/-- A Python string, modelled as its list of characters. -/
abbrev PyStr := List Char

/-- One parsed TLE record: `(name, line1, line2)`, as built by
`parse_tle_blocks` in `TLE_gpt.py`. -/
abbrev TleRecord := PyStr × PyStr × PyStr

/-- Model of Python `str.lstrip()`: drop leading whitespace. -/
def py_lstrip (s : PyStr) : PyStr := s.dropWhile Char.isWhitespace

/-- Model of Python `str.rstrip()`: drop trailing whitespace. -/
def py_rstrip (s : PyStr) : PyStr := (s.reverse.dropWhile Char.isWhitespace).reverse

/-- Model of Python `str.strip()`: drop leading and trailing whitespace. -/
def py_strip (s : PyStr) : PyStr := py_rstrip (py_lstrip s)

/-- Model of Python `str.lower()` (`Char.toLower` agrees on ASCII). -/
def py_lower (s : PyStr) : PyStr := s.map Char.toLower

/-- Model of Python's substring test `needle in hay` (naive scan). -/
def py_in (needle : PyStr) : PyStr → Bool
  | [] => needle.isPrefixOf []
  | c :: t => needle.isPrefixOf (c :: t) || py_in needle t

/-- Split a text on `'\n'`, keeping every piece (so a trailing newline
produces a trailing empty piece).  Never returns the empty list. -/
def splitOnNl : PyStr → List PyStr
  | [] => [[]]
  | c :: cs =>
    if c = '\n' then [] :: splitOnNl cs
    else
      match splitOnNl cs with
      | [] => [[c]]
      | l :: ls => (c :: l) :: ls

/-- Model of Python `str.splitlines()` for `'\n'`-separated text: split on
newlines, with no empty final piece when the text ends in `'\n'`. -/
def splitlines (t : PyStr) : List PyStr :=
  if (splitOnNl t).getLast? = some [] then (splitOnNl t).dropLast else splitOnNl t

/-- Join a list of lines into a text, terminating every line (including the
last) with `'\n'`. -/
def join_lines : List PyStr → PyStr
  | [] => []
  | l :: ls => l ++ '\n' :: join_lines ls

/-- The line-1 marker `"1 "` checked by the parser. -/
def marker1 : PyStr := ['1', ' ']

/-- The line-2 marker `"2 "` checked by the parser. -/
def marker2 : PyStr := ['2', ' ']

/-- The list-comprehension body of `parse_tle_blocks` (`TLE_gpt.py:101`):
keep the lines whose stripped form is non-empty (Python truthiness of
`ln.strip()`) and strip each kept line. -/
def clean_list (ls : List PyStr) : List PyStr :=
  (ls.filter (fun ln => !(py_strip ln).isEmpty)).map py_strip

/-- The cleaned line list of `parse_tle_blocks`, from
`lines = [ln.strip() for ln in tle_text.splitlines() if ln.strip()]`
(`TLE_gpt.py:101`). -/
def clean_lines (t : PyStr) : List PyStr :=
  clean_list (splitlines t)

/-- The cursor scan of `parse_tle_blocks` (`TLE_gpt.py:104-112`): while at
least three lines remain, emit `(lines[i], lines[i+1], lines[i+2])` and
advance by 3 when `lines[i+1]` starts with `"1 "` and `lines[i+2]` starts
with `"2 "`, otherwise advance by 1 to resynchronize. -/
def scan_blocks : List PyStr → List TleRecord
  | n :: a :: b :: rest =>
    if marker1.isPrefixOf a && marker2.isPrefixOf b then
      (n, a, b) :: scan_blocks rest
    else
      scan_blocks (a :: b :: rest)
  | _ => []

/-- Model of `parse_tle_blocks` (`TLE_gpt.py:100-113`). -/
def parse_tle_blocks (t : PyStr) : List TleRecord :=
  scan_blocks (clean_lines t)

/-- The per-record body of the filter loop (`TLE_gpt.py:151-160`): attempt
the altitude computation (`none` models a raised exception, whereupon the
record is skipped), then require `p_km <= perigee_max_km` and, when the name
filter is non-empty, a case-insensitive substring match on the name. -/
def record_passes (computeAlt : PyStr → PyStr → Option ℚ) (perigee_max_km : ℚ)
    (name_filter : PyStr) (r : TleRecord) : Bool :=
  match computeAlt r.2.1 r.2.2 with
  | none => false
  | some p_km =>
    decide (p_km ≤ perigee_max_km) &&
      (if name_filter.isEmpty then true else py_in (py_lower name_filter) (py_lower r.1))

/-- Model of the `filtered` accumulation loop (`TLE_gpt.py:150-160`),
parametrised by the abstract altitude computation. -/
def filtered_records (computeAlt : PyStr → PyStr → Option ℚ) (perigee_max_km : ℚ)
    (name_filter : PyStr) (all_blocks : List TleRecord) : List TleRecord :=
  all_blocks.filter (record_passes computeAlt perigee_max_km name_filter)

/-- Model of the export blob construction (`TLE_gpt.py:180-182`): each
record contributes `"\n".join((name, l1, l2)) + "\n"`. -/
def export_text : List TleRecord → PyStr
  | [] => []
  | r :: rs => r.1 ++ '\n' :: (r.2.1 ++ '\n' :: (r.2.2 ++ '\n' :: export_text rs))

/-- The three lines a record contributes to the export, in order. -/
def blocks_lines : List TleRecord → List PyStr
  | [] => []
  | r :: rs => r.1 :: r.2.1 :: r.2.2 :: blocks_lines rs

/-- Data handed to the `.tle` download button (`TLE_gpt.py:190-196`):
exactly the export blob. -/
def download_tle_data (rs : List TleRecord) : PyStr := export_text rs

/-- Data handed to the `.txt` download button (`TLE_gpt.py:198-204`):
exactly the export blob. -/
def download_txt_data (rs : List TleRecord) : PyStr := export_text rs

/-- Lines of a text built by prefixing each of a list of blocks with blank
lines and appending trailing lines: used to state parse completeness over
inputs that interleave well-formed blocks with blank lines. -/
def interleaved_lines : List (List PyStr × TleRecord) → List PyStr → List PyStr
  | [], trail => trail
  | (bl, r) :: rest, trail => bl ++ r.1 :: r.2.1 :: r.2.2 :: interleaved_lines rest trail

/-- Strip the three lines of a raw block, as the parser does. -/
def strip_record (r : TleRecord) : TleRecord :=
  (py_strip r.1, py_strip r.2.1, py_strip r.2.2)

/-- Earth mean equatorial radius in km (`EARTH_RADIUS_KM`, `TLE_gpt.py:14`). -/
def EARTH_RADIUS_KM : ℝ := 6378.137

/-- Standard gravitational parameter of Earth in km³/s², from the spec's
perigee derivation (§4.3). -/
def MU_EARTH : ℝ := 398600.4418

/-- Mean motion converted from revolutions per day to radians per second
(spec §4.3 step 1). -/
noncomputable def n_rad_s (meanMotionRevPerDay : ℝ) : ℝ :=
  meanMotionRevPerDay * (2 * Real.pi) / 86400

/-- Semi-major axis in km from mean motion via Kepler's third law
(spec §4.3 step 2). -/
noncomputable def kepler_a_km (meanMotionRevPerDay : ℝ) : ℝ :=
  (MU_EARTH / (n_rad_s meanMotionRevPerDay) ^ 2) ^ ((1 : ℝ) / 3)

/-- Modelled from the spec: `EarthSatellite(line1, line2, "sat", ts).model.a`
(`TLE_gpt.py:118-119`) — the semi-major axis in Earth radii produced by the
`skyfield` library, which is not part of this repository's sources — is
modelled per spec §4.3 steps 1–2 as the Kepler semi-major axis for the
record's decoded mean motion, expressed in units of the reference radius. -/
noncomputable def sat_model_a_er (meanMotionRevPerDay : ℝ) : ℝ :=
  kepler_a_km meanMotionRevPerDay / EARTH_RADIUS_KM

/-- Model of `perigee_alt_km_from_tle` (`TLE_gpt.py:116-123`) on the decoded
mean motion (rev/day) and eccentricity: `a_km = a_er * EARTH_RADIUS_KM`,
then `perigee_km = a_km * (1 - e) - EARTH_RADIUS_KM`. -/
noncomputable def perigee_alt_km_from_tle (meanMotionRevPerDay e : ℝ) : ℝ :=
  let a_er := sat_model_a_er meanMotionRevPerDay
  let a_km := a_er * EARTH_RADIUS_KM
  a_km * (1 - e) - EARTH_RADIUS_KM

/-! ## Helper lemmas about stripping -/

/-- A list whose head (if any) fails the predicate is unchanged by `dropWhile`. -/
theorem dropWhile_self_of_head {α : Type} (p : α → Bool) (l : List α)
    (h : ∀ c, l.head? = some c → p c = false) : l.dropWhile p = l := by
  cases l with
  | nil => rfl
  | cons c t =>
    have hc := h c rfl
    simp [List.dropWhile_cons, hc]

/-- Dropping a prefix of failures twice is the same as dropping it once. -/
theorem dropWhile_self_idem {α : Type} (p : α → Bool) (l : List α) :
    (l.dropWhile p).dropWhile p = l.dropWhile p := by
  apply dropWhile_self_of_head
  intro c hc
  have h := List.head?_dropWhile_not p l
  rw [hc] at h
  exact h

/-- The left strip is a suffix of the original string. -/
theorem py_lstrip_suffix_self (s : PyStr) : py_lstrip s <:+ s :=
  List.dropWhile_suffix _

/-- The right strip is a prefix of the original string. -/
theorem py_rstrip_prefix_self (s : PyStr) : py_rstrip s <+: s := by
  have h : (py_rstrip s).reverse <:+ s.reverse := by
    rw [py_rstrip, List.reverse_reverse]
    exact List.dropWhile_suffix _
  exact List.reverse_suffix.mp h

/-- Characters of the stripped string come from the original string. -/
theorem mem_of_mem_py_strip {c : Char} {s : PyStr} (h : c ∈ py_strip s) : c ∈ s := by
  rw [py_strip] at h
  have h1 : c ∈ py_lstrip s := ((py_rstrip_prefix_self (py_lstrip s)).sublist).mem h
  exact ((py_lstrip_suffix_self s).sublist).mem h1

/-- The head of a left-stripped string is not whitespace. -/
theorem head_py_lstrip (s : PyStr) :
    ∀ c, (py_lstrip s).head? = some c → Char.isWhitespace c = false := by
  intro c hc
  have h := List.head?_dropWhile_not Char.isWhitespace s
  rw [py_lstrip] at hc
  rw [hc] at h
  exact h

/-- Head of a non-empty list prefix agrees with the head of the full list. -/
theorem head?_of_listPrefix {x u : PyStr} (h : x <+: u) {c : Char}
    (hc : x.head? = some c) : u.head? = some c := by
  obtain ⟨t, rfl⟩ := h
  cases x with
  | nil => simp at hc
  | cons a y => simp_all

/-- Right-stripping twice is the same as right-stripping once. -/
theorem py_rstrip_idem (s : PyStr) : py_rstrip (py_rstrip s) = py_rstrip s := by
  rw [py_rstrip, py_rstrip, List.reverse_reverse, dropWhile_self_idem]

/-- Stripping is idempotent: `py_strip (py_strip s) = py_strip s`. -/
theorem py_strip_idem (s : PyStr) : py_strip (py_strip s) = py_strip s := by
  rw [py_strip, py_strip]
  have h1 : py_lstrip (py_rstrip (py_lstrip s)) = py_rstrip (py_lstrip s) := by
    apply dropWhile_self_of_head
    intro c hc
    have hs : (py_lstrip s).head? = some c :=
      head?_of_listPrefix (py_rstrip_prefix_self (py_lstrip s)) hc
    exact head_py_lstrip s c hs
  rw [h1, py_rstrip_idem]

/-! ## Helper lemmas about line splitting and joining -/

/-- Splitting never produces the empty list of pieces. -/
theorem splitOnNl_ne_nil (t : PyStr) : splitOnNl t ≠ [] := by
  cases t with
  | nil => simp [splitOnNl]
  | cons c cs =>
    rw [splitOnNl]
    split
    · simp
    · split <;> simp

/-- Splitting a text that starts with a newline-free line followed by a
newline peels off exactly that line. -/
theorem splitOnNl_append_line (x t : PyStr) (hx : '\n' ∉ x) :
    splitOnNl (x ++ '\n' :: t) = x :: splitOnNl t := by
  induction x with
  | nil => simp [splitOnNl]
  | cons c cs ih =>
    have h1 : ¬('\n' = c) ∧ '\n' ∉ cs := by simpa [not_or] using hx
    rw [List.cons_append, splitOnNl, if_neg (fun h => h1.1 h.symm), ih h1.2]

/-- Splitting the join of newline-free lines recovers the lines plus the
empty piece after the final newline. -/
theorem splitOnNl_join_lines (ls : List PyStr) (h : ∀ l ∈ ls, '\n' ∉ l) :
    splitOnNl (join_lines ls) = ls ++ [[]] := by
  induction ls with
  | nil => simp [join_lines, splitOnNl]
  | cons l ls ih =>
    rw [join_lines, splitOnNl_append_line l _ (h l (by simp)),
      ih (fun x hx => h x (by simp [hx]))]
    rfl

/-- Python-style `splitlines` of the join of newline-free lines recovers the
lines exactly. -/
theorem splitlines_join_lines (ls : List PyStr) (h : ∀ l ∈ ls, '\n' ∉ l) :
    splitlines (join_lines ls) = ls := by
  rw [splitlines, splitOnNl_join_lines ls h, if_pos (List.getLast?_concat ls),
    List.dropLast_concat]

/-- Pieces produced by splitting contain no newline. -/
theorem not_nl_of_mem_splitOnNl (t : PyStr) : ∀ l ∈ splitOnNl t, '\n' ∉ l := by
  induction t with
  | nil =>
    intro l hl
    simp [splitOnNl] at hl
    simp [hl]
  | cons c cs ih =>
    intro l hl
    rw [splitOnNl] at hl
    by_cases hc : c = '\n'
    · rw [if_pos hc] at hl
      rcases List.mem_cons.mp hl with h | h
      · simp [h]
      · exact ih l h
    · rw [if_neg hc] at hl
      cases hsp : splitOnNl cs with
      | nil => exact absurd hsp (splitOnNl_ne_nil cs)
      | cons p ps =>
        rw [hsp] at hl
        rcases List.mem_cons.mp hl with h | h
        · subst h
          intro hmem
          rcases List.mem_cons.mp hmem with h | h
          · exact hc h.symm
          · exact ih p (by rw [hsp]; exact List.mem_cons_self p ps) h
        · exact ih l (by rw [hsp]; exact List.mem_cons_of_mem p h)

/-- Every line produced by `splitlines` is a piece of the raw split. -/
theorem mem_splitOnNl_of_mem_splitlines {t : PyStr} {l : PyStr}
    (h : l ∈ splitlines t) : l ∈ splitOnNl t := by
  rw [splitlines] at h
  split at h
  · exact (List.dropLast_sublist _).mem h
  · exact h

/-! ## Helper lemmas about the cleaned line list -/

/-- A cleaned line is non-empty, already stripped, and the strip of some
original line. -/
theorem clean_list_inv (ls : List PyStr) (l : PyStr) (h : l ∈ clean_list ls) :
    l ≠ [] ∧ py_strip l = l ∧ ∃ l0 ∈ ls, l = py_strip l0 := by
  rw [clean_list] at h
  rcases List.mem_map.mp h with ⟨l0, hl0, rfl⟩
  rcases List.mem_filter.mp hl0 with ⟨hmem, hpred⟩
  refine ⟨?_, py_strip_idem l0, ⟨l0, hmem, rfl⟩⟩
  intro hnil
  rw [hnil] at hpred
  simp at hpred

/-- Lines produced by the parser's cleaning step are non-empty, stripped,
and newline-free. -/
theorem clean_lines_inv (t : PyStr) (l : PyStr) (h : l ∈ clean_lines t) :
    l ≠ [] ∧ py_strip l = l ∧ '\n' ∉ l := by
  rw [clean_lines] at h
  obtain ⟨hne, hfix, l0, hl0, rfl⟩ := clean_list_inv _ _ h
  refine ⟨hne, hfix, fun hmem => ?_⟩
  exact not_nl_of_mem_splitOnNl t l0 (mem_splitOnNl_of_mem_splitlines hl0)
    (mem_of_mem_py_strip hmem)

/-- Cleaning keeps a line whose strip is non-empty, stripping it. -/
theorem clean_list_cons_keep (l : PyStr) (ls : List PyStr) (h : py_strip l ≠ []) :
    clean_list (l :: ls) = py_strip l :: clean_list ls := by
  have hp : (!(py_strip l).isEmpty) = true := by
    cases hsp : py_strip l with
    | nil => exact absurd hsp h
    | cons a t => rfl
  rw [clean_list, List.filter_cons, if_pos hp, List.map_cons]
  rfl

/-- Cleaning drops a line whose strip is empty. -/
theorem clean_list_cons_drop (l : PyStr) (ls : List PyStr) (h : py_strip l = []) :
    clean_list (l :: ls) = clean_list ls := by
  have hp : ¬((!(py_strip l).isEmpty) = true) := by
    rw [h]
    simp
  rw [clean_list, List.filter_cons, if_neg hp]
  rfl

/-- Cleaning distributes over list append. -/
theorem clean_list_append (xs ys : List PyStr) :
    clean_list (xs ++ ys) = clean_list xs ++ clean_list ys := by
  simp [clean_list, List.filter_append, List.map_append]

/-- Cleaning a run of blank lines yields nothing. -/
theorem clean_list_blank (xs : List PyStr) (h : ∀ l ∈ xs, py_strip l = []) :
    clean_list xs = [] := by
  induction xs with
  | nil => rfl
  | cons l ls ih =>
    rw [clean_list_cons_drop l ls (h l (by simp))]
    exact ih (fun x hx => h x (by simp [hx]))

/-- Cleaning is the identity on non-empty already-stripped lines. -/
theorem clean_list_eq_self (ls : List PyStr) (h : ∀ l ∈ ls, l ≠ [] ∧ py_strip l = l) :
    clean_list ls = ls := by
  induction ls with
  | nil => rfl
  | cons l ls ih =>
    obtain ⟨hne, hfix⟩ := h l (by simp)
    rw [clean_list_cons_keep l ls (by rw [hfix]; exact hne), hfix]
    rw [ih (fun x hx => h x (by simp [hx]))]

theorem scan_blocks_inv (ls : List PyStr) :
    ∀ r ∈ scan_blocks ls,
      (r.1 ∈ ls ∧ r.2.1 ∈ ls ∧ r.2.2 ∈ ls) ∧
        marker1.isPrefixOf r.2.1 = true ∧ marker2.isPrefixOf r.2.2 = true := by
  induction ls using scan_blocks.induct with
  | case1 n a b rest hcond ih =>
    intro r hr
    rw [scan_blocks, if_pos hcond] at hr
    rcases List.mem_cons.mp hr with h | h
    · subst h
      have hc' := hcond
      simp only [Bool.and_eq_true] at hc'
      refine ⟨⟨?_, ?_, ?_⟩, hc'.1, hc'.2⟩ <;> simp
    · obtain ⟨⟨m1, m2, m3⟩, p1, p2⟩ := ih r h
      exact ⟨⟨by simp [m1], by simp [m2], by simp [m3]⟩, p1, p2⟩
  | case2 n a b rest hcond ih =>
    intro r hr
    rw [scan_blocks, if_neg hcond] at hr
    obtain ⟨⟨m1, m2, m3⟩, p1, p2⟩ := ih r hr
    exact ⟨⟨by simp [List.mem_cons] at m1 ⊢; tauto,
            by simp [List.mem_cons] at m2 ⊢; tauto,
            by simp [List.mem_cons] at m3 ⊢; tauto⟩, p1, p2⟩
  | case3 ls h =>
    intro r hr
    rw [scan_blocks] at hr
    · simp at hr
    · exact h

/-- Scanning the concatenated lines of marker-correct records yields exactly
those records, in order. -/
theorem scan_blocks_of_blocks_lines (rs : List TleRecord)
    (h : ∀ r ∈ rs, marker1.isPrefixOf r.2.1 = true ∧ marker2.isPrefixOf r.2.2 = true) :
    scan_blocks (blocks_lines rs) = rs := by
  induction rs with
  | nil => rfl
  | cons r rs ih =>
    obtain ⟨h1, h2⟩ := h r (by simp)
    rw [blocks_lines, scan_blocks, if_pos (by rw [h1, h2]; rfl)]
    rw [ih (fun x hx => h x (by simp [hx]))]

/-- A string with a non-empty Boolean prefix is non-empty. -/
theorem ne_nil_of_isPrefixOf {m x : PyStr} (hm : m ≠ []) (h : m.isPrefixOf x = true) :
    x ≠ [] := by
  intro hx
  subst hx
  exact hm ( List.prefix_nil.mp ( List.isPrefixOf_iff_prefix.mp h))

/-- A line that starts with `"1 "` does not start with `"2 "`. -/
theorem marker2_not_of_marker1 {x : PyStr} (h : marker1.isPrefixOf x = true) :
    marker2.isPrefixOf x = false := by
  cases x with
  | nil => rfl
  | cons c t =>
    simp only [marker1, List.isPrefixOf, Bool.and_eq_true, beq_iff_eq] at h
    rw [← h.1]
    rfl

/-- The export blob is the newline-join of the records' lines. -/
theorem export_text_eq_join (rs : List TleRecord) :
    export_text rs = join_lines (blocks_lines rs) := by
  induction rs with
  | nil => rfl
  | cons r rs ih =>
    rw [export_text, blocks_lines, join_lines, join_lines, join_lines, ih]

/-- Every line of `blocks_lines` is a component of one of the records. -/
theorem mem_blocks_lines {rs : List TleRecord} {l : PyStr} (h : l ∈ blocks_lines rs) :
    ∃ r ∈ rs, l = r.1 ∨ l = r.2.1 ∨ l = r.2.2 := by
  induction rs with
  | nil => simp [blocks_lines] at h
  | cons r rs ih =>
    rw [blocks_lines] at h
    rcases List.mem_cons.mp h with h1 | h1
    · exact ⟨r, by simp, Or.inl h1⟩
    rcases List.mem_cons.mp h1 with h2 | h2
    · exact ⟨r, by simp, Or.inr (Or.inl h2)⟩
    rcases List.mem_cons.mp h2 with h3 | h3
    · exact ⟨r, by simp, Or.inr (Or.inr h3)⟩
    · obtain ⟨r', hr', hc⟩ := ih h3
      exact ⟨r', by simp [hr'], hc⟩

/-- Structural invariant of every record emitted by the parser: its three
lines are non-empty, stripped, newline-free, and its two element lines carry
the checked markers. -/
theorem parse_mem_inv (t : PyStr) (r : TleRecord) (h : r ∈ parse_tle_blocks t) :
    (r.1 ≠ [] ∧ py_strip r.1 = r.1 ∧ '\n' ∉ r.1) ∧
      (r.2.1 ≠ [] ∧ py_strip r.2.1 = r.2.1 ∧ '\n' ∉ r.2.1) ∧
      (r.2.2 ≠ [] ∧ py_strip r.2.2 = r.2.2 ∧ '\n' ∉ r.2.2) ∧
      marker1.isPrefixOf r.2.1 = true ∧ marker2.isPrefixOf r.2.2 = true := by
  rw [parse_tle_blocks] at h
  obtain ⟨⟨h1, h2, h3⟩, hm1, hm2⟩ := scan_blocks_inv _ r h
  exact ⟨clean_lines_inv t _ h1, clean_lines_inv t _ h2, clean_lines_inv t _ h3, hm1, hm2⟩

/-- Cleaning an interleaving of blank runs and blocks whose stripped lines
are kept yields exactly the stripped block lines, in order. -/
theorem clean_list_interleaved (bs : List (List PyStr × TleRecord)) (trail : List PyStr)
    (hb : ∀ p ∈ bs, ∀ l ∈ p.1, py_strip l = [])
    (ht : ∀ l ∈ trail, py_strip l = [])
    (hr : ∀ p ∈ bs, py_strip p.2.1 ≠ [] ∧ py_strip p.2.2.1 ≠ [] ∧ py_strip p.2.2.2 ≠ []) :
    clean_list (interleaved_lines bs trail) =
      blocks_lines (bs.map (fun p => strip_record p.2)) := by
  induction bs with
  | nil => simpa [interleaved_lines, blocks_lines] using clean_list_blank trail ht
  | cons p bs ih =>
    obtain ⟨hn, h1, h2⟩ := hr p (by simp)
    rw [interleaved_lines, clean_list_append,
      clean_list_blank p.1 (hb p (by simp)), List.nil_append,
      clean_list_cons_keep _ _ hn, clean_list_cons_keep _ _ h1,
      clean_list_cons_keep _ _ h2,
      ih (fun x hx => hb x (by simp [hx])) (fun x hx => hr x (by simp [hx]))]
    rfl

/-- The modelled perigee computation collapses to the closed Kepler form. -/
theorem perigee_alt_eq (n e : ℝ) :
    perigee_alt_km_from_tle n e = kepler_a_km n * (1 - e) - EARTH_RADIUS_KM := by
  have hR : EARTH_RADIUS_KM ≠ 0 := by rw [EARTH_RADIUS_KM]; norm_num
  simp only [perigee_alt_km_from_tle, sat_model_a_er]
  rw [div_mul_cancel₀ _ hR]

/-- Claim C1: for every decoded mean motion `n` (rev/day) and eccentricity
`e`, the computed perigee altitude equals `a_km * (1 - e) - 6378.137` with
`a_km = (398600.4418 / n_rad_s^2)^(1/3)` and `n_rad_s = n * 2π / 86400`.
The semi-major axis returned by `skyfield` is modelled from the spec
(see `sat_model_a_er`). -/
theorem claim_C1_perigee_closed_form (n e : ℝ) :
    perigee_alt_km_from_tle n e =
      (398600.4418 / (n * (2 * Real.pi) / 86400) ^ 2) ^ ((1 : ℝ) / 3) * (1 - e)
        - 6378.137 := by
  rw [perigee_alt_eq]
  simp only [kepler_a_km, n_rad_s, MU_EARTH, EARTH_RADIUS_KM]

/-- Claim C7: for fixed eccentricity `e ∈ [0,1)` and positive mean motions
`n1 < n2`, the computed semi-major axis for `n2` is strictly smaller than
for `n1`, and therefore so is the computed perigee altitude. -/
theorem claim_C7_altitude_monotone (e n1 n2 : ℝ) (he0 : 0 ≤ e) (he1 : e < 1)
    (hn1 : 0 < n1) (h12 : n1 < n2) :
    kepler_a_km n2 < kepler_a_km n1 ∧
      perigee_alt_km_from_tle n2 e < perigee_alt_km_from_tle n1 e := by
  have hpi := Real.pi_pos
  have hn2 : 0 < n2 := hn1.trans h12
  have hs1 : 0 < n_rad_s n1 := by
    rw [n_rad_s]
    apply div_pos (mul_pos hn1 (by linarith)) (by norm_num)
  have hs2 : 0 < n_rad_s n2 := by
    rw [n_rad_s]
    apply div_pos (mul_pos hn2 (by linarith)) (by norm_num)
  have hslt : n_rad_s n1 < n_rad_s n2 := by
    rw [n_rad_s, n_rad_s]
    have hmul : n1 * (2 * Real.pi) < n2 * (2 * Real.pi) :=
      mul_lt_mul_of_pos_right h12 (by linarith)
    linarith
  have hsq : n_rad_s n1 ^ 2 < n_rad_s n2 ^ 2 := by nlinarith
  have hMU : 0 < MU_EARTH := by rw [MU_EARTH]; norm_num
  have hdiv : MU_EARTH / n_rad_s n2 ^ 2 < MU_EARTH / n_rad_s n1 ^ 2 :=
    div_lt_div_of_pos_left hMU (pow_pos hs1 2) hsq
  have hA : kepler_a_km n2 < kepler_a_km n1 := by
    rw [kepler_a_km, kepler_a_km]
    exact Real.rpow_lt_rpow (le_of_lt (div_pos hMU (pow_pos hs2 2))) hdiv (by norm_num)
  refine ⟨hA, ?_⟩
  rw [perigee_alt_eq, perigee_alt_eq]
  have h1e : (0:ℝ) < 1 - e := by linarith
  have := mul_lt_mul_of_pos_right hA h1e
  linarith

/-- Witness for claim C7 at `e = 0`, `n1 = 1`, `n2 = 2`. -/
theorem claim_C7_altitude_monotone_witness :
    ((0:ℝ) ≤ 0 ∧ (0:ℝ) < 1 ∧ (0:ℝ) < 1 ∧ (1:ℝ) < 2) ∧
      kepler_a_km 2 < kepler_a_km 1 ∧
        perigee_alt_km_from_tle 2 0 < perigee_alt_km_from_tle 1 0 :=
  ⟨⟨le_refl 0, by norm_num, by norm_num, by norm_num⟩,
    claim_C7_altitude_monotone 0 1 2 (le_refl 0) (by norm_num) (by norm_num) (by norm_num)⟩

/-- Claim C10: the text offered as the `.tle` artifact and the text offered
as the `.txt` artifact are identical, both being exactly the export blob
built by joining each record's name, line1 and line2 with line breaks. -/
theorem claim_C10_artifacts_identical (rs : List TleRecord) :
    download_tle_data rs = download_txt_data rs ∧
      download_tle_data rs = join_lines (blocks_lines rs) :=
  ⟨rfl, export_text_eq_join rs⟩

/-- Claim C6: the filtered set is an ordered subsequence of the input
sequence, for every altitude computation, threshold and name filter; hence
its length never exceeds the input length. -/
theorem claim_C6_stable_subsequence (computeAlt : PyStr → PyStr → Option ℚ)
    (thr : ℚ) (f : PyStr) (blocks : List TleRecord) :
    List.Sublist (filtered_records computeAlt thr f blocks) blocks ∧
      (filtered_records computeAlt thr f blocks).length ≤ blocks.length :=
  ⟨List.filter_sublist blocks, List.length_filter_le _ blocks⟩

/-- Claim C5: a record whose decode or altitude computation fails (modelled
by `computeAlt` returning `none`) is silently excluded from the filtered
set, and the outcome for every other record of the batch is unchanged. -/
theorem claim_C5_failure_isolated (computeAlt : PyStr → PyStr → Option ℚ)
    (thr : ℚ) (f : PyStr) (xs ys : List TleRecord) (bad : TleRecord)
    (hbad : computeAlt bad.2.1 bad.2.2 = none) :
    filtered_records computeAlt thr f (xs ++ bad :: ys) =
      filtered_records computeAlt thr f xs ++ filtered_records computeAlt thr f ys := by
  have hfail : record_passes computeAlt thr f bad = false := by
    simp only [record_passes, hbad]
  rw [filtered_records, List.filter_append, List.filter_cons, if_neg (by simp [hfail])]
  rfl

/-- Witness for claim C5: a record with a corrupt second line is dropped
while the records around it keep their outcomes. -/
theorem claim_C5_failure_isolated_witness :
    (fun (l1 : PyStr) (_ : PyStr) => if l1 = ['1'] then some (100:ℚ) else none)
        (("NB".data, "xx".data, "yy".data) : TleRecord).2.1
        (("NB".data, "xx".data, "yy".data) : TleRecord).2.2 = none ∧
    filtered_records
        (fun (l1 : PyStr) (_ : PyStr) => if l1 = ['1'] then some (100:ℚ) else none)
        2000 []
        ([(("A".data), ("1".data), ("2".data))] ++
          (("NB".data, "xx".data, "yy".data) : TleRecord) ::
            [(("B".data), ("1".data), ("2".data))]) =
      filtered_records
          (fun (l1 : PyStr) (_ : PyStr) => if l1 = ['1'] then some (100:ℚ) else none)
          2000 [] [(("A".data), ("1".data), ("2".data))] ++
        filtered_records
          (fun (l1 : PyStr) (_ : PyStr) => if l1 = ['1'] then some (100:ℚ) else none)
          2000 [] [(("B".data), ("1".data), ("2".data))] :=
  ⟨by decide, claim_C5_failure_isolated _ 2000 [] _ _ _ (by decide)⟩

/-- Claim C2: among records whose altitude computes without error, a record
is in the filtered set iff its perigee altitude is at most the threshold
(inclusive) and the name filter is empty or matches case-insensitively as a
substring of the record's name. -/
theorem claim_C2_pass_iff (computeAlt : PyStr → PyStr → Option ℚ) (thr : ℚ)
    (f : PyStr) (blocks : List TleRecord) (r : TleRecord) (p : ℚ)
    (hmem : r ∈ blocks) (hc : computeAlt r.2.1 r.2.2 = some p) :
    r ∈ filtered_records computeAlt thr f blocks ↔
      (p ≤ thr ∧ (f = [] ∨ py_in (py_lower f) (py_lower r.1) = true)) := by
  rw [filtered_records, List.mem_filter]
  simp only [record_passes, hc]
  by_cases hf : f = []
  · subst hf
    simp [hmem]
  · have hfe : f.isEmpty = false := by
      cases f with
      | nil => exact absurd rfl hf
      | cons a t => rfl
    simp [hmem, hfe, hf, Bool.and_eq_true]

/-- Witness for claim C2: the inclusive boundary (altitude exactly at the
threshold) together with a case-insensitive name match passes. -/
theorem claim_C2_pass_iff_witness :
    (("ISS (ZARYA)".data), ("1 A".data), ("2 B".data)) ∈
      filtered_records (fun _ _ => some 2000) 2000 ("zarya".data)
        [((("ISS (ZARYA)".data), ("1 A".data), ("2 B".data)) : TleRecord)] :=
  (claim_C2_pass_iff (fun _ _ => some 2000) 2000 ("zarya".data) _ _ 2000
      (by decide) rfl).mpr ⟨le_refl 2000, Or.inr (by decide)⟩

/-- Claim C9: every record emitted by the parser has a non-empty name,
line1 and line2, each free of leading and trailing whitespace (stated as
being a fixed point of stripping). -/
theorem claim_C9_emitted_lines_clean (t : PyStr) (r : TleRecord)
    (h : r ∈ parse_tle_blocks t) :
    (r.1 ≠ [] ∧ py_strip r.1 = r.1) ∧ (r.2.1 ≠ [] ∧ py_strip r.2.1 = r.2.1) ∧
      (r.2.2 ≠ [] ∧ py_strip r.2.2 = r.2.2) := by
  obtain ⟨⟨a1, a2, _⟩, ⟨b1, b2, _⟩, ⟨c1, c2, _⟩, _, _⟩ := parse_mem_inv t r h
  exact ⟨⟨a1, a2⟩, ⟨b1, b2⟩, ⟨c1, c2⟩⟩

/-- Witness for claim C9 on a concrete parsed record. -/
theorem claim_C9_emitted_lines_clean_witness :
    ((("ISS".data) ≠ ([] : PyStr) ∧ py_strip ("ISS".data) = ("ISS".data)) ∧
      (("1 A".data) ≠ ([] : PyStr) ∧ py_strip ("1 A".data) = ("1 A".data)) ∧
      (("2 B".data) ≠ ([] : PyStr) ∧ py_strip ("2 B".data) = ("2 B".data))) :=
  claim_C9_emitted_lines_clean (" ISS \n1 A\n2 B\n".data)
    ((("ISS".data), ("1 A".data), ("2 B".data)) : TleRecord) (by decide)

/-- Claim C4: parsing the exported text of the filtered set yields exactly
the filtered set again, for every input text, altitude computation,
threshold and name filter (in particular for inputs made of well-formed
blocks only). -/
theorem claim_C4_roundtrip (t : PyStr) (computeAlt : PyStr → PyStr → Option ℚ)
    (thr : ℚ) (f : PyStr) :
    parse_tle_blocks (export_text (filtered_records computeAlt thr f
        (parse_tle_blocks t))) =
      filtered_records computeAlt thr f (parse_tle_blocks t) := by
  have key : ∀ rs : List TleRecord, (∀ r ∈ rs, r ∈ parse_tle_blocks t) →
      parse_tle_blocks (export_text rs) = rs := by
    intro rs hmem
    have hlines : ∀ l ∈ blocks_lines rs, l ≠ [] ∧ py_strip l = l ∧ '\n' ∉ l := by
      intro l hl
      obtain ⟨r, hr, hc⟩ := mem_blocks_lines hl
      have hi := parse_mem_inv t r (hmem r hr)
      rcases hc with rfl | rfl | rfl
      · exact hi.1
      · exact hi.2.1
      · exact hi.2.2.1
    rw [parse_tle_blocks, export_text_eq_join, clean_lines,
      splitlines_join_lines _ (fun l hl => (hlines l hl).2.2),
      clean_list_eq_self _ (fun l hl => ⟨(hlines l hl).1, (hlines l hl).2.1⟩),
      scan_blocks_of_blocks_lines _ (fun r hr =>
        ⟨(parse_mem_inv t r (hmem r hr)).2.2.2.1,
          (parse_mem_inv t r (hmem r hr)).2.2.2.2⟩)]
  exact key _ (fun r hr => (List.mem_filter.mp hr).1)

/-- Counterexample to claim C3 as stated: the single block
`("X", "1 ", "2 x")` is well-formed in the claim's sense — non-blank name,
second line starting with `"1 "`, third line starting with `"2 "` — and its
concatenation is the whole input, yet the parser emits 0 records instead of
1, because lines are stripped before the marker check and `"1 "` strips to
`"1"`. -/
theorem claim_C3_counterexample :
    join_lines [("X".data), ("1 ".data), ("2 x".data)] = ("X\n1 \n2 x\n".data) ∧
      py_strip ("X".data) ≠ [] ∧
      marker1.isPrefixOf ("1 ".data) = true ∧
      marker2.isPrefixOf ("2 x".data) = true ∧
      parse_tle_blocks ("X\n1 \n2 x\n".data) = [] := by
  decide

/-- Claim C3 (amended): for input text formed by concatenating blocks whose
stripped name line is non-blank and whose stripped second and third lines
start with `"1 "` and `"2 "` respectively, separated by arbitrarily many
blank lines, the parser returns exactly the blocks' stripped records, in
order — in particular exactly N records for N blocks, and a block occupying
the final three non-blank lines is emitted. -/
theorem claim_C3_parse_completeness (bs : List (List PyStr × TleRecord))
    (trail : List PyStr)
    (hnl : ∀ l ∈ interleaved_lines bs trail, '\n' ∉ l)
    (hblank : ∀ p ∈ bs, ∀ l ∈ p.1, py_strip l = [])
    (htrail : ∀ l ∈ trail, py_strip l = [])
    (hname : ∀ p ∈ bs, py_strip p.2.1 ≠ [])
    (hm1 : ∀ p ∈ bs, marker1.isPrefixOf (py_strip p.2.2.1) = true)
    (hm2 : ∀ p ∈ bs, marker2.isPrefixOf (py_strip p.2.2.2) = true) :
    parse_tle_blocks (join_lines (interleaved_lines bs trail)) =
        bs.map (fun p => strip_record p.2) ∧
      (parse_tle_blocks (join_lines (interleaved_lines bs trail))).length =
        bs.length := by
  have hmark1 : marker1 ≠ ([] : PyStr) := by decide
  have hmark2 : marker2 ≠ ([] : PyStr) := by decide
  have hscan : ∀ r ∈ bs.map (fun p => strip_record p.2),
      marker1.isPrefixOf r.2.1 = true ∧ marker2.isPrefixOf r.2.2 = true := by
    intro r hr
    rcases List.mem_map.mp hr with ⟨p, hp, rfl⟩
    exact ⟨hm1 p hp, hm2 p hp⟩
  have heq : parse_tle_blocks (join_lines (interleaved_lines bs trail)) =
      bs.map (fun p => strip_record p.2) := by
    rw [parse_tle_blocks, clean_lines, splitlines_join_lines _ hnl,
      clean_list_interleaved bs trail hblank htrail
        (fun p hp => ⟨hname p hp, ne_nil_of_isPrefixOf hmark1 (hm1 p hp),
          ne_nil_of_isPrefixOf hmark2 (hm2 p hp)⟩),
      scan_blocks_of_blocks_lines _ hscan]
  exact ⟨heq, by rw [heq]; simp⟩

/-- Witness for the amended claim C3: one block surrounded by blank lines
parses to exactly its stripped record. -/
theorem claim_C3_parse_completeness_witness :
    parse_tle_blocks (join_lines (interleaved_lines
        [([(" ".data)], ((" ISS ".data), ("1 A".data), ("2 B ".data)))]
        [("".data)])) =
      [([(" ".data)], ((" ISS ".data), ("1 A".data), ("2 B ".data)))].map
          (fun p => strip_record p.2) ∧
    (parse_tle_blocks (join_lines (interleaved_lines
        [([(" ".data)], ((" ISS ".data), ("1 A".data), ("2 B ".data)))]
        [("".data)]))).length = 1 :=
  claim_C3_parse_completeness _ _ (by decide) (by decide) (by decide) (by decide)
    (by decide) (by decide)

/-- Claim C8: for a well-formed block A (in the parser's sense: after
stripping, non-blank name and correctly marked element lines), then a single
corrupted line, then a well-formed block B, the parser emits exactly block A
followed by block B — A is emitted and B's three lines all appear in an
emitted record, because on a marker mismatch the cursor advances by one line
and retries. -/
theorem claim_C8_resynchronization (nA aA bA c nB aB bB : PyStr)
    (hnl : ∀ l ∈ [nA, aA, bA, c, nB, aB, bB], '\n' ∉ l)
    (hnA : py_strip nA ≠ [])
    (hm1A : marker1.isPrefixOf (py_strip aA) = true)
    (hm2A : marker2.isPrefixOf (py_strip bA) = true)
    (hnB : py_strip nB ≠ [])
    (hm1B : marker1.isPrefixOf (py_strip aB) = true)
    (hm2B : marker2.isPrefixOf (py_strip bB) = true) :
    parse_tle_blocks (join_lines [nA, aA, bA, c, nB, aB, bB]) =
      [(py_strip nA, py_strip aA, py_strip bA),
        (py_strip nB, py_strip aB, py_strip bB)] := by
  have hmark1 : marker1 ≠ ([] : PyStr) := by decide
  have hmark2 : marker2 ≠ ([] : PyStr) := by decide
  have hA1 : py_strip aA ≠ [] := ne_nil_of_isPrefixOf hmark1 hm1A
  have hA2 : py_strip bA ≠ [] := ne_nil_of_isPrefixOf hmark2 hm2A
  have hB1 : py_strip aB ≠ [] := ne_nil_of_isPrefixOf hmark1 hm1B
  have hB2 : py_strip bB ≠ [] := ne_nil_of_isPrefixOf hmark2 hm2B
  have hcondA : (marker1.isPrefixOf (py_strip aA) &&
      marker2.isPrefixOf (py_strip bA)) = true := by rw [hm1A, hm2A]; rfl
  have hcondB : (marker1.isPrefixOf (py_strip aB) &&
      marker2.isPrefixOf (py_strip bB)) = true := by rw [hm1B, hm2B]; rfl
  rw [parse_tle_blocks, clean_lines, splitlines_join_lines _ hnl,
    clean_list_cons_keep _ _ hnA, clean_list_cons_keep _ _ hA1,
    clean_list_cons_keep _ _ hA2]
  by_cases hc : py_strip c = []
  · rw [clean_list_cons_drop _ _ hc, clean_list_cons_keep _ _ hnB,
      clean_list_cons_keep _ _ hB1, clean_list_cons_keep _ _ hB2,
      clean_list_blank [] (by intro l hl; simp at hl)]
    rw [scan_blocks, if_pos hcondA, scan_blocks, if_pos hcondB]
    rfl
  · have hneg : ¬((marker1.isPrefixOf (py_strip nB) &&
        marker2.isPrefixOf (py_strip aB)) = true) := by
      rw [marker2_not_of_marker1 hm1B]
      simp
    rw [clean_list_cons_keep _ _ hc, clean_list_cons_keep _ _ hnB,
      clean_list_cons_keep _ _ hB1, clean_list_cons_keep _ _ hB2,
      clean_list_blank [] (by intro l hl; simp at hl)]
    rw [scan_blocks, if_pos hcondA, scan_blocks, if_neg hneg,
      scan_blocks, if_pos hcondB]
    rfl

/-- Witness for claim C8 on concrete blocks with a corrupted middle line. -/
theorem claim_C8_resynchronization_witness :
    parse_tle_blocks (join_lines
        [("NA".data), ("1 A".data), ("2 B".data), ("garbage".data),
          ("NB".data), ("1 C".data), ("2 D".data)]) =
      [(py_strip ("NA".data), py_strip ("1 A".data), py_strip ("2 B".data)),
        (py_strip ("NB".data), py_strip ("1 C".data), py_strip ("2 D".data))] :=
  claim_C8_resynchronization ("NA".data) ("1 A".data) ("2 B".data)
    ("garbage".data) ("NB".data) ("1 C".data) ("2 D".data)
    (by decide) (by decide) (by decide) (by decide) (by decide) (by decide) (by decide)
